import Mathlib

/-!
# Verification of `cyclic_correlation.py`

Shallow embedding of the module `cyclic_correlation.py` (functions
`ZC_sequence`, `check_inputs_define_limits`, `cyclic_corr`) together with
theorems settling the specification claims.

Python dynamic values are modelled by small inductive types (`PySignal`,
`PyParam`, `PyNum`); numpy array primitives (`np.pad`, `np.resize`,
slicing, `np.fft.fft`, `np.fft.ifft`, `np.max`, `np.min`, `np.argmax`)
are embedded as Lean functions on `List ℂ` following numpy's documented
semantics; `warnings.warn` messages are collected in a returned list;
Python exceptions become `Except` errors.
-/

open Complex

namespace CyclicCorrelation

/-- A Python value passed in a signal position: `None`, a value that is
neither a `list` nor an `np.ndarray`, a 1-D numeric array, a 1-D array of
strings (`np.array` of a list of strings has `ndim == 1`), or a 2-D
numeric array. -/
inductive PySignal where
  | pnone : PySignal
  | nonSeq : PySignal
  | arr1 : List ℂ → PySignal
  | arrStr : List String → PySignal
  | arr2 : List (List ℂ) → PySignal

/-- A Python value passed in a string-parameter position (`method`, `wrt`):
either an actual `str` or some non-string value. -/
inductive PyParam where
  | pstr : String → PyParam
  | nonStr : PyParam

/-- A Python value passed in an integer-parameter position of
`ZC_sequence`: an `int` or some non-`int` value. -/
inductive PyNum where
  | pint : ℤ → PyNum
  | nonInt : PyNum

/-- Python exceptions raised by `cyclic_corr` at runtime. -/
inductive PyErr where
  | valueError : String → PyErr
  | unboundLocal : String → PyErr
  | typeError : String → PyErr

/-- Python `str.lower()` (ASCII range, which covers all method/window
strings involved), as a structurally recursive map so that concrete
instances reduce in the kernel. -/
def strLower (s : String) : String := ⟨s.data.map Char.toLower⟩

/-- `s is None`. -/
def PySignal.isNone : PySignal → Bool
  | .pnone => true
  | _ => false

/-- `isinstance(s, (list, np.ndarray))`. -/
def PySignal.isSeq : PySignal → Bool
  | .arr1 _ => true
  | .arrStr _ => true
  | .arr2 _ => true
  | _ => false

/-- `np.array(s).ndim`. -/
def PySignal.ndim : PySignal → ℕ
  | .arr1 _ => 1
  | .arrStr _ => 1
  | .arr2 _ => 2
  | _ => 0

/-- `s.shape[0]` of the corresponding numpy array. -/
def PySignal.len : PySignal → ℕ
  | .arr1 xs => xs.length
  | .arrStr ss => ss.length
  | .arr2 xss => xss.length
  | _ => 0

/-- `np.pad(s, (0, k), mode='constant')`: append `k` zero elements on the
right (the constant fill value is `0` for numeric dtypes, `''` for string
dtypes). -/
def PySignal.pad : PySignal → ℕ → PySignal
  | .arr1 xs, k => .arr1 (xs ++ List.replicate k 0)
  | .arrStr ss, k => .arrStr (ss ++ List.replicate k "")
  | s, _ => s

/-- Slicing `s[:m]`. -/
def PySignal.take : PySignal → ℕ → PySignal
  | .arr1 xs, m => .arr1 (xs.take m)
  | .arrStr ss, m => .arrStr (ss.take m)
  | s, _ => s

/-- `np.resize(a, m)`: repeat the array cyclically up to length `m`
(`value_at i = a[i mod len a]`); an empty array is filled with the
dtype's zero, which is the `getD` default here. -/
def np_resize {α : Type} (xs : List α) (m : ℕ) (d : α) : List α :=
  (List.range m).map fun i => xs.getD (i % xs.length) d

/-- `np.resize(s, m)` on a signal value. -/
def PySignal.resize : PySignal → ℕ → PySignal
  | .arr1 xs, m => .arr1 (np_resize xs m 0)
  | .arrStr ss, m => .arrStr (np_resize ss m "")
  | s, _ => s

/-- The length-mismatch block of `check_inputs_define_limits` (lines
126-151 of the source): applied after validation, with `w` the already
lower-cased `wrt`.  The `warnings.warn` messages are returned as a list
of diagnostics. -/
def reconcile_mismatch (s1 s2 : PySignal) (w : String) (padded : Bool) :
    PySignal × PySignal × List String :=
  if s1.len = s2.len then (s1, s2, [])
  else if padded then
    if s1.len > s2.len then
      (s1, s2.pad (s1.len - s2.len), ["s2 is padded to s1 length"])
    else
      (s1.pad (s2.len - s1.len), s2, ["s1 is padded to s2 length"])
  else if w = "short" then
    (s1.take (min s1.len s2.len), s2.take (min s1.len s2.len),
      ["Signals are truncated to the length of the shorter one"])
  else
    (s1.resize (max s1.len s2.len), s2.resize (max s1.len s2.len),
      ["Signals are resized to the length of the longer one"])

/-- `check_inputs_define_limits(s1, s2, method, wrt, padded)`: validation
followed by length reconciliation.  Note that the lower-cased `method`
and `wrt` are local variables of the Python function; only the processed
signals (plus the warning diagnostics) are returned. -/
def check_inputs_define_limits (s1 s2 : PySignal) (method wrt : PyParam)
    (padded : Bool) : Except String (PySignal × PySignal × List String) :=
  if s1.isNone || s2.isNone then
    .error "Input signals s1 and s2 must not be None."
  else if !(s1.isSeq && s2.isSeq) then
    .error "Input signals s1 and s2 must be lists or numpy arrays."
  else if !(s1.ndim == 1 && s2.ndim == 1) then
    .error "Both s1 and s2 must be 1D arrays."
  else
    match method with
    | .nonStr => .error "Parameter 'method' must be a string."
    | .pstr m0 =>
      if !((["fft", "analytic"] : List String).contains (strLower m0)) then
        .error "Invalid method. Supported methods are ('fft', 'analytic')."
      else
        match wrt with
        | .nonStr => .error "Parameter 'wrt' must be a string."
        | .pstr w0 =>
          if !((["short", "long"] : List String).contains (strLower w0)) then
            .error "Invalid wrt. Supported options are ('short', 'long')."
          else
            .ok (reconcile_mismatch s1 s2 (strLower w0) padded)

/-- `np.max` of a 1-D real array (the maximum element; numpy raises on an
empty array, which does not occur on the valid inputs considered here). -/
noncomputable def np_max : List ℝ → ℝ
  | [] => 0
  | x :: xs => xs.foldl max x

/-- `np.min` of a 1-D real array. -/
noncomputable def np_min : List ℝ → ℝ
  | [] => 0
  | x :: xs => xs.foldl min x

/-- Index of the first occurrence of `v` in the list (`0` past the end). -/
noncomputable def idxOfR (v : ℝ) : List ℝ → ℕ
  | [] => 0
  | x :: xs => if x = v then 0 else idxOfR v xs + 1

/-- `np.argmax`: per the numpy documentation, the index of the first
occurrence of the maximum value. -/
noncomputable def np_argmax (l : List ℝ) : ℕ := idxOfR (np_max l) l

/-- The shared statistics epilogue of `cyclic_corr` (lines 224-228):
`abs_Z = np.abs(Z)`, `max_val = np.max(abs_Z)`, `min_val = np.min(abs_Z)`,
`t_max = np.argmax(abs_Z)`, returned as `(Z, max_val, t_max, min_val)`. -/
noncomputable def corr_stats (Z : List ℂ) : List ℂ × ℝ × ℕ × ℝ :=
  (Z, np_max (Z.map Complex.abs), np_argmax (Z.map Complex.abs),
    np_min (Z.map Complex.abs))

/-- `np.fft.fft(x)`: the unnormalized forward discrete Fourier transform,
`X[j] = Σ_k x[k] · exp(-2πi·j·k/n)`. -/
noncomputable def np_fft (x : List ℂ) : List ℂ :=
  (List.range x.length).map fun (j : ℕ) =>
    ∑ k in Finset.range x.length,
      x.getD k 0 * Complex.exp (-(2 * Real.pi * Complex.I * (j : ℂ) * (k : ℂ)) / (x.length : ℂ))

/-- `np.fft.ifft(X)`: the inverse discrete Fourier transform with the
`1/n` factor, `x[t] = (Σ_j X[j] · exp(2πi·j·t/n)) / n`. -/
noncomputable def np_ifft (X : List ℂ) : List ℂ :=
  (List.range X.length).map fun (t : ℕ) =>
    (∑ j in Finset.range X.length,
      X.getD j 0 * Complex.exp ((2 * Real.pi * Complex.I * (j : ℂ) * (t : ℂ)) / (X.length : ℂ)))
      / (X.length : ℂ)

/-- The inner accumulation `Zk += s1[k] * np.conj(s2[(k + t) % n])` of the
analytic branch. -/
noncomputable def Zk (s1 s2 : List ℂ) (n t : ℕ) : ℂ :=
  ∑ k in Finset.range n, s1.getD k 0 * (starRingEnd ℂ) (s2.getD ((k + t) % n) 0)

/-- The inner accumulation `Zl += np.conj(s1[l]) * s2[(l + t) % n]` of the
analytic branch. -/
noncomputable def Zl (s1 s2 : List ℂ) (n t : ℕ) : ℂ :=
  ∑ l in Finset.range n, (starRingEnd ℂ) (s1.getD l 0) * s2.getD ((l + t) % n) 0

/-- Python `method == "analytic"`: a comparison of the raw (unnormalized)
value against the literal; `False` on a non-string. -/
def PyParam.eqStr : PyParam → String → Bool
  | .pstr m, s => m == s
  | .nonStr, _ => false

/-- Reading the Python local variable `n`, which is assigned only inside
`if(normalized):` — reading it while unassigned raises
`UnboundLocalError`. -/
def readLocalN (n : Option ℕ) : Except PyErr ℕ :=
  match n with
  | some v => .ok v
  | none => .error (.unboundLocal "cannot access local variable 'n'")

/-- `cyclic_corr(s1, s2, method, padded, wrt, normalized)` (lines
153-229 of the source).  The structure mirrors the Python body:
the outer `isinstance` gate, the call to `check_inputs_define_limits`
(whose `ValueError` propagates), the conditional assignment
`if(normalized): n = min(s1.shape[0], s2.shape[0])`, the raw-string
branch test `method == "analytic"`, the analytic double loop, the FFT
pipeline, and the shared statistics epilogue.  Reads of `n` go through
`readLocalN`; numpy ufuncs applied to a non-numeric array raise
`TypeError`. -/
noncomputable def cyclic_corr (s1 s2 : PySignal) (method : PyParam)
    (padded : Bool) (wrt : PyParam) (normalized : Bool) :
    Except PyErr (List ℂ × ℝ × ℕ × ℝ) :=
  if !(s1.isSeq && s2.isSeq) then
    .error (.valueError "Input signals s1 and s2 must be lists or numpy arrays.")
  else
    match check_inputs_define_limits s1 s2 method wrt padded with
    | .error e => .error (.valueError e)
    | .ok (t1, t2, _diag) =>
      let nLoc : Option ℕ := if normalized then some (min t1.len t2.len) else none
      if method.eqStr "analytic" then
        match readLocalN nLoc with
        | .error e => .error e
        | .ok n =>
          match t1, t2 with
          | .arr1 x, .arr1 y =>
            let Z0 := (List.range n).map fun t => Zk x y n t * Zl x y n t
            let Z := if normalized then Z0.map fun z => z / ((n : ℂ) ^ 2) else Z0
            .ok (corr_stats Z)
          | _, _ => .error (.typeError "ufunc 'conjugate' not supported for the input types")
      else
        match t1, t2 with
        | .arr1 x, .arr1 y =>
          let Z0 := np_ifft (List.zipWith (· * ·) (np_fft x) ((np_fft y).map (starRingEnd ℂ)))
          if normalized then
            match readLocalN nLoc with
            | .error e => .error e
            | .ok n => .ok (corr_stats (Z0.map fun z => z / (n : ℂ)))
          else
            .ok (corr_stats Z0)
        | _, _ => .error (.typeError "ufunc 'fft' not supported for the input types")

/-- The element formula of the Zadoff-Chu generator (line 51 of the
source): `ZC[k] = exp(-1j * (π/N) * r * ((k%N) + N%2 + 2*(q%N)) * (k%N))`,
with the real scalar factor collected inside one real coercion. -/
noncomputable def ZC_formula (r q : ℤ) (N : ℕ) (k : ℕ) : ℂ :=
  Complex.exp (-Complex.I *
    ((Real.pi / (N : ℝ) * (r : ℝ) *
      (((k % N : ℕ) : ℝ) + ((N % 2 : ℕ) : ℝ) + 2 * ((q % (N : ℤ) : ℤ) : ℝ)) *
      ((k % N : ℕ) : ℝ) : ℝ) : ℂ))

/-- `ZC_sequence(r, q, N)` (lines 15-52 of the source): parameter
validation followed by the vectorized formula over `k = 0 .. N-1`. -/
noncomputable def ZC_sequence (r q N : PyNum) : Except String (List ℂ) :=
  match r, q, N with
  | .pint ri, .pint qi, .pint Ni =>
    if Ni < 1 then .error "Parameter N must be >= 1."
    else if ¬(1 ≤ ri ∧ ri ≤ Ni) then .error "Parameter r must satisfy 1 <= r <= N."
    else if qi < 0 then .error "Parameter q must be >= 0."
    else .ok ((List.range Ni.toNat).map (ZC_formula ri qi Ni.toNat))
  | _, _, _ => .error "Parameters r, q, and N must all be integers."

/-! ### Heap-level model of the valid-signal path

To state that the library never mutates caller-owned arrays, the numeric
path of `check_inputs_define_limits` and `cyclic_corr` is replayed over
an explicit store of numpy arrays.  Every numpy operation that produces
an array (`np.pad`, slicing, `np.resize`, building `Z`) allocates a
fresh cell; in-place writes (`a[i] = v`, which the model supports via
`writeA`) are never performed, exactly as in the Python source. -/

/-- A store of materialized numpy arrays, addressed by position. -/
abbrev Store : Type := List (List ℂ)

/-- Read the array at address `a`. -/
def readA (σ : Store) (a : ℕ) : List ℂ :=
  List.getD σ a []

/-- Allocate a fresh array holding `v` at the end of the store; returns
its address. -/
def alloc (σ : Store) (v : List ℂ) : ℕ × Store :=
  (List.length σ, σ ++ [v])

/-- In-place update of the array at address `a` — available in the model
so that non-mutation is a statement, not a tautology; the embedded
bodies below never use it, mirroring the source. -/
def writeA (σ : Store) (a : ℕ) (v : List ℂ) : Store :=
  List.set σ a v

/-- Heap-level replay of the length-reconciliation block of
`check_inputs_define_limits` on two valid numeric arrays held at
addresses `a1`, `a2` (validation of `method`/`wrt` is value-level and
performed before this block is reached): each numpy operation that
produces an array (`np.pad`, slicing, `np.resize`) allocates a fresh
cell. -/
def check_inputs_heap (σ : Store) (a1 a2 : ℕ) (w : String) (padded : Bool) :
    (ℕ × ℕ) × Store :=
  if (readA σ a1).length = (readA σ a2).length then ((a1, a2), σ)
  else if padded then
    if (readA σ a2).length < (readA σ a1).length then
      ((a1, (alloc σ (readA σ a2 ++
          List.replicate ((readA σ a1).length - (readA σ a2).length) 0)).1),
        (alloc σ (readA σ a2 ++
          List.replicate ((readA σ a1).length - (readA σ a2).length) 0)).2)
    else
      (((alloc σ (readA σ a1 ++
          List.replicate ((readA σ a2).length - (readA σ a1).length) 0)).1, a2),
        (alloc σ (readA σ a1 ++
          List.replicate ((readA σ a2).length - (readA σ a1).length) 0)).2)
  else if w = "short" then
    (((alloc σ ((readA σ a1).take (min (readA σ a1).length (readA σ a2).length))).1,
      (alloc (alloc σ ((readA σ a1).take (min (readA σ a1).length (readA σ a2).length))).2
        ((readA σ a2).take (min (readA σ a1).length (readA σ a2).length))).1),
      (alloc (alloc σ ((readA σ a1).take (min (readA σ a1).length (readA σ a2).length))).2
        ((readA σ a2).take (min (readA σ a1).length (readA σ a2).length))).2)
  else
    (((alloc σ (np_resize (readA σ a1) (max (readA σ a1).length (readA σ a2).length) 0)).1,
      (alloc (alloc σ (np_resize (readA σ a1) (max (readA σ a1).length (readA σ a2).length) 0)).2
        (np_resize (readA σ a2) (max (readA σ a1).length (readA σ a2).length) 0)).1),
      (alloc (alloc σ (np_resize (readA σ a1) (max (readA σ a1).length (readA σ a2).length) 0)).2
        (np_resize (readA σ a2) (max (readA σ a1).length (readA σ a2).length) 0)).2)

/-- Heap-level replay of the correlation phase of `cyclic_corr` on the
reconciled arrays at addresses `b1`, `b2` of store `σ1`: conditionally
define `n`, branch on the raw `method` string, compute `Z` into a fresh
cell and return its address (statistics are scalars and omitted). -/
noncomputable def corr_heap_phase (σ1 : Store) (b1 b2 : ℕ) (method : String)
    (normalized : Bool) : Except PyErr ℕ × Store :=
  if method == "analytic" then
    match readLocalN (if normalized then
        some (min (readA σ1 b1).length (readA σ1 b2).length) else none) with
    | .error e => (.error e, σ1)
    | .ok n =>
      (.ok (alloc σ1 (if normalized then
          ((List.range n).map fun t =>
            Zk (readA σ1 b1) (readA σ1 b2) n t * Zl (readA σ1 b1) (readA σ1 b2) n t).map
            fun z => z / ((n : ℂ) ^ 2)
        else (List.range n).map fun t =>
            Zk (readA σ1 b1) (readA σ1 b2) n t * Zl (readA σ1 b1) (readA σ1 b2) n t)).1,
        (alloc σ1 (if normalized then
          ((List.range n).map fun t =>
            Zk (readA σ1 b1) (readA σ1 b2) n t * Zl (readA σ1 b1) (readA σ1 b2) n t).map
            fun z => z / ((n : ℂ) ^ 2)
        else (List.range n).map fun t =>
            Zk (readA σ1 b1) (readA σ1 b2) n t * Zl (readA σ1 b1) (readA σ1 b2) n t)).2)
  else if normalized then
    match readLocalN (some (min (readA σ1 b1).length (readA σ1 b2).length)) with
    | .error e => (.error e, σ1)
    | .ok n =>
      (.ok (alloc σ1 ((np_ifft (List.zipWith (· * ·) (np_fft (readA σ1 b1))
          ((np_fft (readA σ1 b2)).map (starRingEnd ℂ)))).map fun z => z / (n : ℂ))).1,
        (alloc σ1 ((np_ifft (List.zipWith (· * ·) (np_fft (readA σ1 b1))
          ((np_fft (readA σ1 b2)).map (starRingEnd ℂ)))).map fun z => z / (n : ℂ))).2)
  else
    (.ok (alloc σ1 (np_ifft (List.zipWith (· * ·) (np_fft (readA σ1 b1))
        ((np_fft (readA σ1 b2)).map (starRingEnd ℂ))))).1,
      (alloc σ1 (np_ifft (List.zipWith (· * ·) (np_fft (readA σ1 b1))
        ((np_fft (readA σ1 b2)).map (starRingEnd ℂ))))).2)

/-- Heap-level replay of `cyclic_corr` on two valid numeric arrays with
validated `method` and `wrt` strings: reconcile, then run the selected
correlation algorithm on the reconciled addresses. -/
noncomputable def cyclic_corr_heap (σ : Store) (a1 a2 : ℕ) (method : String)
    (padded : Bool) (wrt : String) (normalized : Bool) :
    Except PyErr ℕ × Store :=
  corr_heap_phase (check_inputs_heap σ a1 a2 (strLower wrt) padded).2
    (check_inputs_heap σ a1 a2 (strLower wrt) padded).1.1
    (check_inputs_heap σ a1 a2 (strLower wrt) padded).1.2
    method normalized

/-! ### Basic facts about the embedded helpers -/

lemma strLower_Analytic : strLower "Analytic" = "analytic" := by decide

lemma strLower_analytic_id : strLower "analytic" = "analytic" := by decide

lemma strLower_fft_id : strLower "fft" = "fft" := by decide

lemma strLower_short_id : strLower "short" = "short" := by decide

lemma strLower_long_id : strLower "long" = "long" := by decide

lemma contains_methods_of (m : String)
    (hm : strLower m = "fft" ∨ strLower m = "analytic") :
    (["fft", "analytic"] : List String).contains (strLower m) = true := by
  rcases hm with h | h <;> simp [h]

lemma contains_windows_of (w : String)
    (hw : strLower w = "short" ∨ strLower w = "long") :
    (["short", "long"] : List String).contains (strLower w) = true := by
  rcases hw with h | h <;> simp [h]

/-- With already length-equal signals, the reconciliation block is the
identity and emits no diagnostics. -/
lemma reconcile_mismatch_of_len_eq (s1 s2 : PySignal) (w : String) (p : Bool)
    (h : s1.len = s2.len) : reconcile_mismatch s1 s2 w p = (s1, s2, []) := by
  simp [reconcile_mismatch, h]

/-- On 1-D numeric arrays with accepted `method`/`wrt` strings, validation
passes and `check_inputs_define_limits` returns the reconciled pair. -/
lemma check_arr1_ok (s1 s2 : List ℂ) (m w : String) (p : Bool)
    (hm : strLower m = "fft" ∨ strLower m = "analytic")
    (hw : strLower w = "short" ∨ strLower w = "long") :
    check_inputs_define_limits (.arr1 s1) (.arr1 s2) (.pstr m) (.pstr w) p
      = .ok (reconcile_mismatch (.arr1 s1) (.arr1 s2) (strLower w) p) := by
  rcases hm with h | h <;> rcases hw with h2 | h2 <;>
    simp [check_inputs_define_limits, PySignal.isNone, PySignal.isSeq, PySignal.ndim, h, h2]

/-- Reconciliation of two 1-D numeric arrays yields 1-D numeric arrays. -/
lemma reconcile_mismatch_arr1 (s1 s2 : List ℂ) (w : String) (p : Bool) :
    ∃ u v d, reconcile_mismatch (.arr1 s1) (.arr1 s2) w p
      = (.arr1 u, .arr1 v, d) := by
  unfold reconcile_mismatch
  split
  · exact ⟨s1, s2, [], rfl⟩
  · split
    · split
      · exact ⟨_, _, _, rfl⟩
      · exact ⟨_, _, _, rfl⟩
    · split
      · exact ⟨_, _, _, rfl⟩
      · exact ⟨_, _, _, rfl⟩

/-! ### Claim C2 -/

/-- C2: REFUTED as stated — the code crashes.  With `method="analytic"`
and `normalized=False` the local `n` is only assigned inside
`if(normalized):`, so the analytic branch's `range(n)` raises
`UnboundLocalError` even on perfectly valid equal-length signals; no
correlation result of length `n` is returned.  (The spec itself flags
this as the undefined-length defect to be fixed.)  Here the code is
evaluated at the failing input `s1 = s2 = [1]`. -/
theorem cyclic_corr_analytic_unnormalized_crashes :
    cyclic_corr (.arr1 [1]) (.arr1 [1]) (.pstr "analytic") true (.pstr "short") false
      = .error (.unboundLocal "cannot access local variable 'n'") := by
  have h1 : strLower "analytic" = "analytic" := by decide
  have h2 : strLower "short" = "short" := by decide
  simp [cyclic_corr, check_inputs_define_limits, reconcile_mismatch, PySignal.isSeq,
    PySignal.isNone, PySignal.ndim, PySignal.len, PyParam.eqStr, readLocalN, h1, h2]

/-! ### Claim C1 -/

/-- C1: for every pair of valid numeric signals and accepted window
string, calling `cyclic_corr` with the mixed-case method string
`"Analytic"` passes validation (which lower-cases the string before the
acceptance check) yet produces exactly the same outcome as `"fft"`: the
engine's branch test compares the raw string against the literal
`"analytic"`, so the FFT branch runs, and the call succeeds. -/
theorem claim_mixed_case_method_selects_fft :
    ∀ (s1 s2 : List ℂ) (wrt : String) (padded normalized : Bool),
    strLower wrt = "short" ∨ strLower wrt = "long" →
    cyclic_corr (.arr1 s1) (.arr1 s2) (.pstr "Analytic") padded (.pstr wrt) normalized
      = cyclic_corr (.arr1 s1) (.arr1 s2) (.pstr "fft") padded (.pstr wrt) normalized
    ∧ ∃ res, cyclic_corr (.arr1 s1) (.arr1 s2) (.pstr "Analytic") padded (.pstr wrt) normalized
        = .ok res := by
  intro s1 s2 wrt padded normalized hw
  obtain ⟨u, v, d, hrec⟩ := reconcile_mismatch_arr1 s1 s2 (strLower wrt) padded
  have hA := check_arr1_ok s1 s2 "Analytic" wrt padded (Or.inr strLower_Analytic) hw
  have hF := check_arr1_ok s1 s2 "fft" wrt padded (Or.inl strLower_fft_id) hw
  rw [hrec] at hA hF
  constructor
  · simp [cyclic_corr, hA, hF, PySignal.isSeq, PyParam.eqStr]
  · cases normalized <;>
      simp [cyclic_corr, hA, PySignal.isSeq, PyParam.eqStr, readLocalN]

/-- Witness for C1 at `s1 = s2 = [1]`, `wrt = "short"`. -/
theorem claim_mixed_case_method_selects_fft_witness :
    (strLower "short" = "short" ∨ strLower "short" = "long")
    ∧ (cyclic_corr (.arr1 [1]) (.arr1 [1]) (.pstr "Analytic") true (.pstr "short") false
        = cyclic_corr (.arr1 [1]) (.arr1 [1]) (.pstr "fft") true (.pstr "short") false
      ∧ ∃ res, cyclic_corr (.arr1 [1]) (.arr1 [1]) (.pstr "Analytic") true (.pstr "short") false
          = .ok res) :=
  ⟨Or.inl (by decide),
    claim_mixed_case_method_selects_fft [1] [1] "short" true false (Or.inl (by decide))⟩

/-! ### Claim C6 -/

/-- C6 counterexample: the claim asserts that a sequence of non-numeric
elements is rejected with `InvalidInput`, but validation only inspects
`ndim` of the converted array — `np.array(["a", "b"])` is a 1-D (string)
array, so two string sequences pass `check_inputs_define_limits`
without error. -/
theorem claim_validation_counterexample_nonnumeric_accepted :
    (check_inputs_define_limits (.arrStr ["a"]) (.arrStr ["b"])
      (.pstr "fft") (.pstr "short") true).isOk = true := by decide

/-- C6 amended: `check_inputs_define_limits` fails (fatally, with no
partial result) exactly when a signal is `None`, a signal is not a
list/array, a signal is not one-dimensional, `method` is not a string or
not case-insensitively one of `{"fft", "analytic"}`, or `wrt` is not a
string or not case-insensitively one of `{"short", "long"}` — element
numeric-ness is NOT part of the check (a 1-D string array is accepted). -/
theorem claim_validation_error_characterization :
    ∀ (s1 s2 : PySignal) (method wrt : PyParam) (padded : Bool),
    (∃ e, check_inputs_define_limits s1 s2 method wrt padded = .error e) ↔
      (s1.isNone = true ∨ s2.isNone = true
       ∨ s1.isSeq = false ∨ s2.isSeq = false
       ∨ s1.ndim ≠ 1 ∨ s2.ndim ≠ 1
       ∨ method = .nonStr
       ∨ (∃ m, method = .pstr m ∧ strLower m ≠ "fft" ∧ strLower m ≠ "analytic")
       ∨ wrt = .nonStr
       ∨ (∃ w, wrt = .pstr w ∧ strLower w ≠ "short" ∧ strLower w ≠ "long")) := by
  intro s1 s2 method wrt padded
  cases method <;> cases wrt <;>
    simp [check_inputs_define_limits] <;> split_ifs <;> simp_all <;> tauto

/-! ### Claim C5 -/

lemma np_resize_getD {α : Type} (xs : List α) (m i : ℕ) (d : α) (h : i < m) :
    (np_resize xs m d).getD i d = xs.getD (i % xs.length) d := by
  unfold np_resize
  rw [List.getD_eq_getElem]
  · simp
  · simpa using h

lemma np_resize_length {α : Type} (xs : List α) (m : ℕ) (d : α) :
    (np_resize xs m d).length = m := by simp [np_resize]

/-- C5: for valid numeric signals of unequal lengths the reconciliation
policy holds and no error is raised: with `padded=true` the shorter
signal is zero-padded on the right to the longer one's length (the
longer unchanged); with `padded=false, wrt="short"` both are truncated
to the shorter length; with `padded=false, wrt="long"` both are brought
to the longer length by cyclic tiling, `value_at i = original[i mod
original_length]`; the returned signals always have equal lengths. -/
theorem claim_reconcile_policy :
    (∀ (s1 s2 : List ℂ) (m w : String),
      (strLower m = "fft" ∨ strLower m = "analytic") →
      (strLower w = "short" ∨ strLower w = "long") →
      s2.length < s1.length →
      check_inputs_define_limits (.arr1 s1) (.arr1 s2) (.pstr m) (.pstr w) true
        = .ok (.arr1 s1, .arr1 (s2 ++ List.replicate (s1.length - s2.length) 0),
            ["s2 is padded to s1 length"])
        ∧ (s2 ++ List.replicate (s1.length - s2.length) (0 : ℂ)).length = s1.length)
    ∧ (∀ (s1 s2 : List ℂ) (m w : String),
      (strLower m = "fft" ∨ strLower m = "analytic") →
      (strLower w = "short" ∨ strLower w = "long") →
      s1.length < s2.length →
      check_inputs_define_limits (.arr1 s1) (.arr1 s2) (.pstr m) (.pstr w) true
        = .ok (.arr1 (s1 ++ List.replicate (s2.length - s1.length) 0), .arr1 s2,
            ["s1 is padded to s2 length"])
        ∧ (s1 ++ List.replicate (s2.length - s1.length) (0 : ℂ)).length = s2.length)
    ∧ (∀ (s1 s2 : List ℂ) (m w : String),
      (strLower m = "fft" ∨ strLower m = "analytic") →
      strLower w = "short" →
      s1.length ≠ s2.length →
      check_inputs_define_limits (.arr1 s1) (.arr1 s2) (.pstr m) (.pstr w) false
        = .ok (.arr1 (s1.take (min s1.length s2.length)),
            .arr1 (s2.take (min s1.length s2.length)),
            ["Signals are truncated to the length of the shorter one"])
        ∧ (s1.take (min s1.length s2.length)).length = min s1.length s2.length
        ∧ (s2.take (min s1.length s2.length)).length = min s1.length s2.length)
    ∧ (∀ (s1 s2 : List ℂ) (m w : String),
      (strLower m = "fft" ∨ strLower m = "analytic") →
      strLower w = "long" →
      s1.length ≠ s2.length →
      check_inputs_define_limits (.arr1 s1) (.arr1 s2) (.pstr m) (.pstr w) false
        = .ok (.arr1 (np_resize s1 (max s1.length s2.length) 0),
            .arr1 (np_resize s2 (max s1.length s2.length) 0),
            ["Signals are resized to the length of the longer one"])
        ∧ (np_resize s1 (max s1.length s2.length) (0 : ℂ)).length = max s1.length s2.length
        ∧ (np_resize s2 (max s1.length s2.length) (0 : ℂ)).length = max s1.length s2.length
        ∧ (∀ i, i < max s1.length s2.length →
            (np_resize s1 (max s1.length s2.length) (0 : ℂ)).getD i 0
              = s1.getD (i % s1.length) 0
            ∧ (np_resize s2 (max s1.length s2.length) (0 : ℂ)).getD i 0
              = s2.getD (i % s2.length) 0)) := by
  refine ⟨?_, ?_, ?_, ?_⟩
  · intro s1 s2 m w hm hw hlt
    rw [check_arr1_ok s1 s2 m w true hm hw]
    constructor
    · unfold reconcile_mismatch
      simp [PySignal.len, PySignal.pad, Nat.ne_of_gt hlt, hlt]
    · simp [Nat.le_of_lt hlt]
  · intro s1 s2 m w hm hw hlt
    rw [check_arr1_ok s1 s2 m w true hm hw]
    constructor
    · unfold reconcile_mismatch
      simp [PySignal.len, PySignal.pad, Nat.ne_of_lt hlt, Nat.not_lt.mpr (Nat.le_of_lt hlt), hlt]
    · simp [Nat.le_of_lt hlt]
  · intro s1 s2 m w hm hw hne
    rw [check_arr1_ok s1 s2 m w false hm (Or.inl hw), hw]
    constructor
    · unfold reconcile_mismatch
      simp [PySignal.len, PySignal.take, hne]
    · constructor <;> simp [List.length_take, Nat.min_le_left, Nat.min_le_right, Nat.min_assoc]
  · intro s1 s2 m w hm hw hne
    rw [check_arr1_ok s1 s2 m w false hm (Or.inr hw), hw]
    refine ⟨?_, np_resize_length _ _ _, np_resize_length _ _ _, ?_⟩
    · unfold reconcile_mismatch
      simp [PySignal.len, PySignal.resize, hne]
    · intro i hi
      exact ⟨np_resize_getD s1 _ i 0 hi, np_resize_getD s2 _ i 0 hi⟩

/-- Witness for C5 at `s1 = [1, 2]`, `s2 = [1]` (and symmetrically),
covering the padding, truncation, and tiling branches. -/
theorem claim_reconcile_policy_witness :
    (check_inputs_define_limits (.arr1 [1, 2]) (.arr1 [1]) (.pstr "fft") (.pstr "short") true
        = .ok (.arr1 [1, 2], .arr1 ([1] ++ List.replicate 1 0), ["s2 is padded to s1 length"])
      ∧ (([1] : List ℂ) ++ List.replicate 1 0).length = ([1, 2] : List ℂ).length)
    ∧ (check_inputs_define_limits (.arr1 [1]) (.arr1 [1, 2]) (.pstr "fft") (.pstr "short") true
        = .ok (.arr1 ([1] ++ List.replicate 1 0), .arr1 [1, 2], ["s1 is padded to s2 length"])
      ∧ (([1] : List ℂ) ++ List.replicate 1 0).length = ([1, 2] : List ℂ).length)
    ∧ (check_inputs_define_limits (.arr1 [1, 2]) (.arr1 [1]) (.pstr "fft") (.pstr "short") false
        = .ok (.arr1 (([1, 2] : List ℂ).take 1), .arr1 (([1] : List ℂ).take 1),
            ["Signals are truncated to the length of the shorter one"])
      ∧ (([1, 2] : List ℂ).take 1).length = 1 ∧ (([1] : List ℂ).take 1).length = 1)
    ∧ (check_inputs_define_limits (.arr1 [1, 2]) (.arr1 [1]) (.pstr "fft") (.pstr "long") false
        = .ok (.arr1 (np_resize [1, 2] 2 0), .arr1 (np_resize [1] 2 0),
            ["Signals are resized to the length of the longer one"])
      ∧ (np_resize ([1, 2] : List ℂ) 2 0).length = 2
      ∧ (np_resize ([1] : List ℂ) 2 0).length = 2
      ∧ (∀ i, i < 2 →
          (np_resize ([1, 2] : List ℂ) 2 0).getD i 0 = ([1, 2] : List ℂ).getD (i % 2) 0
          ∧ (np_resize ([1] : List ℂ) 2 0).getD i 0 = ([1] : List ℂ).getD (i % 1) 0)) := by
  refine ⟨?_, ?_, ?_, ?_⟩
  · exact claim_reconcile_policy.1 [1, 2] [1] "fft" "short"
      (Or.inl (by decide)) (Or.inl (by decide)) (by decide)
  · exact claim_reconcile_policy.2.1 [1] [1, 2] "fft" "short"
      (Or.inl (by decide)) (Or.inl (by decide)) (by decide)
  · exact claim_reconcile_policy.2.2.1 [1, 2] [1] "fft" "short"
      (Or.inl (by decide)) (by decide) (by decide)
  · exact claim_reconcile_policy.2.2.2 [1, 2] [1] "fft" "long"
      (Or.inl (by decide)) (by decide) (by decide)

/-! ### Claim C7 -/

/-- On valid parameters `ZC_sequence` succeeds with the mapped formula. -/
lemma ZC_sequence_ok (ri qi Ni : ℤ) (h1 : 1 ≤ Ni) (h2 : 1 ≤ ri) (h3 : ri ≤ Ni)
    (h4 : 0 ≤ qi) :
    ZC_sequence (.pint ri) (.pint qi) (.pint Ni)
      = .ok ((List.range Ni.toNat).map (ZC_formula ri qi Ni.toNat)) := by
  simp [ZC_sequence]
  split_ifs with g1 g2 g3 <;> first | rfl | omega

/-- C7: `ZC_sequence(r, q, N)` fails with `InvalidParameter` exactly when
the parameters are not all integers, or `N < 1`, or `r` is outside
`[1, N]`, or `q < 0`; in particular `ZC_sequence(0, 0, 5)` fails with
the root-range error; and on valid parameters it returns the length-`N`
sequence `ZC[k] = exp(-i·(π/N)·r·((k mod N) + (N mod 2) + 2·(q mod N))·(k mod N))`
for `k = 0 .. N-1`. -/
theorem claim_ZC_parameter_validation :
    (∀ r q N : PyNum,
      (∃ e, ZC_sequence r q N = .error e) ↔
        ¬∃ ri qi Ni : ℤ, r = .pint ri ∧ q = .pint qi ∧ N = .pint Ni
          ∧ 1 ≤ Ni ∧ 1 ≤ ri ∧ ri ≤ Ni ∧ 0 ≤ qi)
    ∧ ZC_sequence (.pint 0) (.pint 0) (.pint 5)
        = .error "Parameter r must satisfy 1 <= r <= N."
    ∧ (∀ ri qi Ni : ℤ, 1 ≤ Ni → 1 ≤ ri → ri ≤ Ni → 0 ≤ qi →
        ZC_sequence (.pint ri) (.pint qi) (.pint Ni)
          = .ok ((List.range Ni.toNat).map (ZC_formula ri qi Ni.toNat))) := by
  refine ⟨?_, rfl, ?_⟩
  · intro r q N
    cases r <;> cases q <;> cases N <;> simp [ZC_sequence]
    case pint.pint.pint ri qi Ni =>
      split_ifs with h1 h2 h3 <;> simp_all
  · intro ri qi Ni h1 h2 h3 h4
    exact ZC_sequence_ok ri qi Ni h1 h2 h3 h4

/-- Witness for C7's success clause at `r = 1`, `q = 0`, `N = 1`. -/
theorem claim_ZC_parameter_validation_witness :
    (1 : ℤ) ≤ 1 ∧ (0 : ℤ) ≤ 0
    ∧ ZC_sequence (.pint 1) (.pint 0) (.pint 1)
        = .ok ((List.range 1).map (ZC_formula 1 0 1)) :=
  ⟨by decide, by decide,
    claim_ZC_parameter_validation.2.2 1 0 1 (by decide) (by decide) (by decide) (by decide)⟩

/-! ### Claim C9 -/

/-- Every Zadoff-Chu element is a complex exponential of a purely
imaginary argument, hence has magnitude 1. -/
lemma ZC_formula_abs (r q : ℤ) (N k : ℕ) : Complex.abs (ZC_formula r q N k) = 1 := by
  unfold ZC_formula
  rw [Complex.abs_exp]
  norm_num [Complex.mul_re]

/-- C9: for every prime `N`, every element of
`ZC_sequence(1, 0, N)` has magnitude 1 (constant-amplitude invariant). -/
theorem claim_ZC_unit_magnitude :
    ∀ N : ℕ, Nat.Prime N →
    ∃ l, ZC_sequence (.pint 1) (.pint 0) (.pint (N : ℤ)) = .ok l
      ∧ ∀ z ∈ l, Complex.abs z = 1 := by
  intro N hp
  have h1 : (1 : ℤ) ≤ (N : ℤ) := by exact_mod_cast hp.one_lt.le
  refine ⟨_, ZC_sequence_ok 1 0 (N : ℤ) h1 le_rfl h1 le_rfl, ?_⟩
  intro z hz
  obtain ⟨k, _, rfl⟩ := List.mem_map.mp hz
  exact ZC_formula_abs 1 0 _ k

/-- Witness for C9 at the prime `N = 2`. -/
theorem claim_ZC_unit_magnitude_witness :
    Nat.Prime 2
    ∧ ∃ l, ZC_sequence (.pint 1) (.pint 0) (.pint ((2 : ℕ) : ℤ)) = .ok l
        ∧ ∀ z ∈ l, Complex.abs z = 1 :=
  ⟨by norm_num, claim_ZC_unit_magnitude 2 (by norm_num)⟩

/-! ### Claims C3 and C4 -/

/-- On equal-length numeric signals, the analytic call reduces to the
bilinear-product pipeline followed by the statistics epilogue. -/
lemma cyclic_corr_analytic_eq (s1 s2 : List ℂ) (w : String) (p : Bool)
    (hw : strLower w = "short" ∨ strLower w = "long") (hlen : s1.length = s2.length) :
    cyclic_corr (.arr1 s1) (.arr1 s2) (.pstr "analytic") p (.pstr w) true
      = .ok (corr_stats
          (((List.range s1.length).map fun t => Zk s1 s2 s1.length t * Zl s1 s2 s1.length t).map
            fun z => z / ((s1.length : ℂ) ^ 2))) := by
  have hchk := check_arr1_ok s1 s2 "analytic" w p (Or.inr strLower_analytic_id) hw
  rw [reconcile_mismatch_of_len_eq _ _ _ _ (by simp [PySignal.len, hlen])] at hchk
  simp [cyclic_corr, hchk, PySignal.isSeq, PyParam.eqStr, readLocalN, PySignal.len, hlen]

/-- C3: with `method="analytic"` and `normalized=True` on reconciled
signals of common length `n`, the result at every shift `t < n` is the
bilinear product `Zk(t) · Zl(t)` of the two independent cyclic sums
(`Zk(t) = Σ_k s1[k]·conj(s2[(k+t) mod n])`,
`Zl(t) = Σ_l conj(s1[l])·s2[(l+t) mod n]`) divided by `n²` — not a
single-sum cross-correlation. -/
theorem claim_analytic_branch_formula :
    ∀ (s1 s2 : List ℂ) (w : String) (p : Bool),
    (strLower w = "short" ∨ strLower w = "long") →
    s1.length = s2.length → 0 < s1.length →
    ∃ Z mx tm mn,
      cyclic_corr (.arr1 s1) (.arr1 s2) (.pstr "analytic") p (.pstr w) true
        = .ok (Z, mx, tm, mn)
      ∧ Z.length = s1.length
      ∧ ∀ t, t < s1.length → Z.getD t 0 =
          (∑ k in Finset.range s1.length,
            s1.getD k 0 * (starRingEnd ℂ) (s2.getD ((k + t) % s1.length) 0))
          * (∑ l in Finset.range s1.length,
            (starRingEnd ℂ) (s1.getD l 0) * s2.getD ((l + t) % s1.length) 0)
          / ((s1.length : ℂ) ^ 2) := by
  intro s1 s2 w p hw hlen hpos
  refine ⟨_, _, _, _, by rw [cyclic_corr_analytic_eq s1 s2 w p hw hlen], ?_, ?_⟩
  · simp [corr_stats]
  · intro t ht
    simp only [corr_stats]
    rw [List.getD_eq_getElem _ _ (by simpa [corr_stats] using ht)]
    simp [Zk, Zl]

/-- Witness for C3 at `s1 = s2 = [1]`. -/
theorem claim_analytic_branch_formula_witness :
    (strLower "short" = "short" ∨ strLower "short" = "long")
    ∧ ∃ Z mx tm mn,
        cyclic_corr (.arr1 [1]) (.arr1 [1]) (.pstr "analytic") true (.pstr "short") true
          = .ok (Z, mx, tm, mn)
        ∧ Z.length = 1
        ∧ ∀ t, t < 1 → Z.getD t 0 =
            (∑ k in Finset.range 1,
              (([1] : List ℂ).getD k 0) * (starRingEnd ℂ) (([1] : List ℂ).getD ((k + t) % 1) 0))
            * (∑ l in Finset.range 1,
              (starRingEnd ℂ) (([1] : List ℂ).getD l 0) * ([1] : List ℂ).getD ((l + t) % 1) 0)
            / (((1 : ℕ) : ℂ) ^ 2) :=
  ⟨Or.inl (by decide),
    claim_analytic_branch_formula [1] [1] "short" true (Or.inl (by decide)) rfl (by decide)⟩

/-- On equal-length numeric signals, the FFT call reduces to
`ifft(fft(s1) · conj(fft(s2)))` with the `1/n` normalization, followed
by the statistics epilogue. -/
lemma cyclic_corr_fft_eq (s1 s2 : List ℂ) (w : String) (p : Bool)
    (hw : strLower w = "short" ∨ strLower w = "long") (hlen : s1.length = s2.length) :
    cyclic_corr (.arr1 s1) (.arr1 s2) (.pstr "fft") p (.pstr w) true
      = .ok (corr_stats
          ((np_ifft (List.zipWith (· * ·) (np_fft s1) ((np_fft s2).map (starRingEnd ℂ)))).map
            fun z => z / (s1.length : ℂ))) := by
  have hchk := check_arr1_ok s1 s2 "fft" w p (Or.inl strLower_fft_id) hw
  rw [reconcile_mismatch_of_len_eq _ _ _ _ (by simp [PySignal.len, hlen])] at hchk
  simp [cyclic_corr, hchk, PySignal.isSeq, PyParam.eqStr, readLocalN, PySignal.len, hlen]

/-- On equal-length numeric signals with `normalized=False`, the FFT
call returns the raw `ifft(fft(s1) · conj(fft(s2)))` product with no
division, followed by the statistics epilogue. -/
lemma cyclic_corr_fft_eq_unnormalized (s1 s2 : List ℂ) (w : String) (p : Bool)
    (hw : strLower w = "short" ∨ strLower w = "long") (hlen : s1.length = s2.length) :
    cyclic_corr (.arr1 s1) (.arr1 s2) (.pstr "fft") p (.pstr w) false
      = .ok (corr_stats
          (np_ifft (List.zipWith (· * ·) (np_fft s1) ((np_fft s2).map (starRingEnd ℂ))))) := by
  have hchk := check_arr1_ok s1 s2 "fft" w p (Or.inl strLower_fft_id) hw
  rw [reconcile_mismatch_of_len_eq _ _ _ _ (by simp [PySignal.len, hlen])] at hchk
  simp [cyclic_corr, hchk, PySignal.isSeq, PyParam.eqStr, readLocalN, PySignal.len, hlen]

/-- C4: with `method="fft"` on reconciled signals of common length `n`,
the result is the inverse transform of the pointwise product of the
forward transform of `s1` with the complex conjugate of the forward
transform of `s2`; when `normalized=True` the whole sequence is divided
by `n` — a different divisor convention than the analytic method's `n²`
(compare `claim_analytic_branch_formula`) — and when `normalized=False`
the raw product is returned undivided. -/
theorem claim_fft_branch_formula :
    (∀ (s1 s2 : List ℂ) (w : String) (p : Bool),
      (strLower w = "short" ∨ strLower w = "long") →
      s1.length = s2.length → 0 < s1.length →
      ∃ Z mx tm mn,
        cyclic_corr (.arr1 s1) (.arr1 s2) (.pstr "fft") p (.pstr w) true = .ok (Z, mx, tm, mn)
        ∧ Z = (np_ifft (List.zipWith (· * ·) (np_fft s1) ((np_fft s2).map (starRingEnd ℂ)))).map
            (fun z => z / (s1.length : ℂ))
        ∧ Z.length = s1.length)
    ∧ (∀ (s1 s2 : List ℂ) (w : String) (p : Bool),
      (strLower w = "short" ∨ strLower w = "long") →
      s1.length = s2.length → 0 < s1.length →
      ∃ Z mx tm mn,
        cyclic_corr (.arr1 s1) (.arr1 s2) (.pstr "fft") p (.pstr w) false = .ok (Z, mx, tm, mn)
        ∧ Z = np_ifft (List.zipWith (· * ·) (np_fft s1) ((np_fft s2).map (starRingEnd ℂ)))
        ∧ Z.length = s1.length) := by
  have hfl : ∀ x : List ℂ, (np_fft x).length = x.length := by
    intro x; simp only [np_fft, List.length_map, List.length_range]
  have hil : ∀ X : List ℂ, (np_ifft X).length = X.length := by
    intro X; simp only [np_ifft, List.length_map, List.length_range]
  constructor
  · intro s1 s2 w p hw hlen hpos
    refine ⟨_, _, _, _, by rw [cyclic_corr_fft_eq s1 s2 w p hw hlen], ?_, ?_⟩
    · rfl
    · simp [corr_stats, List.length_map, List.length_zipWith, hil, hfl, hlen]
  · intro s1 s2 w p hw hlen hpos
    refine ⟨_, _, _, _, by rw [cyclic_corr_fft_eq_unnormalized s1 s2 w p hw hlen], ?_, ?_⟩
    · rfl
    · simp [corr_stats, List.length_map, List.length_zipWith, hil, hfl, hlen]

/-- Witness for C4 at `s1 = s2 = [1]`, covering both normalization
flags. -/
theorem claim_fft_branch_formula_witness :
    (strLower "short" = "short" ∨ strLower "short" = "long")
    ∧ (∃ Z mx tm mn,
        cyclic_corr (.arr1 [1]) (.arr1 [1]) (.pstr "fft") true (.pstr "short") true
          = .ok (Z, mx, tm, mn)
        ∧ Z = (np_ifft (List.zipWith (· * ·) (np_fft [1]) ((np_fft [1]).map (starRingEnd ℂ)))).map
            (fun z => z / (((1 : ℕ) : ℂ)))
        ∧ Z.length = 1)
    ∧ (∃ Z mx tm mn,
        cyclic_corr (.arr1 [1]) (.arr1 [1]) (.pstr "fft") true (.pstr "short") false
          = .ok (Z, mx, tm, mn)
        ∧ Z = np_ifft (List.zipWith (· * ·) (np_fft [1]) ((np_fft [1]).map (starRingEnd ℂ)))
        ∧ Z.length = 1) :=
  ⟨Or.inl (by decide),
    claim_fft_branch_formula.1 [1] [1] "short" true (Or.inl (by decide)) rfl (by decide),
    claim_fft_branch_formula.2 [1] [1] "short" true (Or.inl (by decide)) rfl (by decide)⟩

/-! ### Claim C8 -/

lemma foldl_max_le_self (xs : List ℝ) : ∀ a : ℝ, a ≤ xs.foldl max a := by
  induction xs with
  | nil => intro a; simp
  | cons y ys ih => intro a; exact le_trans (le_max_left a y) (ih (max a y))

lemma foldl_max_le_of_mem (xs : List ℝ) : ∀ (a x : ℝ), x ∈ xs → x ≤ xs.foldl max a := by
  induction xs with
  | nil => intro a x hx; simp at hx
  | cons y ys ih =>
    intro a x hx
    rcases List.mem_cons.mp hx with rfl | h
    · exact le_trans (le_max_right a x) (foldl_max_le_self ys (max a x))
    · exact ih (max a y) x h

lemma foldl_max_mem (xs : List ℝ) : ∀ a : ℝ, xs.foldl max a = a ∨ xs.foldl max a ∈ xs := by
  induction xs with
  | nil => intro a; simp
  | cons y ys ih =>
    intro a
    show ys.foldl max (max a y) = a ∨ ys.foldl max (max a y) ∈ y :: ys
    rcases ih (max a y) with h | h
    · rcases max_choice a y with hm | hm <;> rw [hm] at h ⊢
      · exact Or.inl h
      · exact Or.inr (by rw [h]; exact List.mem_cons_self y ys)
    · exact Or.inr (List.mem_cons_of_mem y h)

lemma np_max_is_ub (l : List ℝ) (x : ℝ) (hx : x ∈ l) : x ≤ np_max l := by
  cases l with
  | nil => simp at hx
  | cons y ys =>
    rcases List.mem_cons.mp hx with rfl | h
    · exact foldl_max_le_self ys x
    · exact foldl_max_le_of_mem ys y x h

lemma np_max_mem (l : List ℝ) (h : l ≠ []) : np_max l ∈ l := by
  cases l with
  | nil => exact absurd rfl h
  | cons y ys =>
    show ys.foldl max y ∈ y :: ys
    rcases foldl_max_mem ys y with h2 | h2
    · rw [h2]; exact List.mem_cons_self y ys
    · exact List.mem_cons_of_mem y h2

lemma foldl_min_le_self (xs : List ℝ) : ∀ a : ℝ, xs.foldl min a ≤ a := by
  induction xs with
  | nil => intro a; simp
  | cons y ys ih => intro a; exact le_trans (ih (min a y)) (min_le_left a y)

lemma foldl_min_le_of_mem (xs : List ℝ) : ∀ (a x : ℝ), x ∈ xs → xs.foldl min a ≤ x := by
  induction xs with
  | nil => intro a x hx; simp at hx
  | cons y ys ih =>
    intro a x hx
    rcases List.mem_cons.mp hx with rfl | h
    · exact le_trans (foldl_min_le_self ys (min a x)) (min_le_right a x)
    · exact ih (min a y) x h

lemma foldl_min_mem (xs : List ℝ) : ∀ a : ℝ, xs.foldl min a = a ∨ xs.foldl min a ∈ xs := by
  induction xs with
  | nil => intro a; simp
  | cons y ys ih =>
    intro a
    show ys.foldl min (min a y) = a ∨ ys.foldl min (min a y) ∈ y :: ys
    rcases ih (min a y) with h | h
    · rcases min_choice a y with hm | hm <;> rw [hm] at h ⊢
      · exact Or.inl h
      · exact Or.inr (by rw [h]; exact List.mem_cons_self y ys)
    · exact Or.inr (List.mem_cons_of_mem y h)

lemma np_min_is_lb (l : List ℝ) (x : ℝ) (hx : x ∈ l) : np_min l ≤ x := by
  cases l with
  | nil => simp at hx
  | cons y ys =>
    rcases List.mem_cons.mp hx with rfl | h
    · exact foldl_min_le_self ys x
    · exact foldl_min_le_of_mem ys y x h

lemma np_min_mem (l : List ℝ) (h : l ≠ []) : np_min l ∈ l := by
  cases l with
  | nil => exact absurd rfl h
  | cons y ys =>
    show ys.foldl min y ∈ y :: ys
    rcases foldl_min_mem ys y with h2 | h2
    · rw [h2]; exact List.mem_cons_self y ys
    · exact List.mem_cons_of_mem y h2

lemma idxOfR_lt_length (v : ℝ) (l : List ℝ) (h : v ∈ l) : idxOfR v l < l.length := by
  induction l with
  | nil => simp at h
  | cons y ys ih =>
    unfold idxOfR
    split
    · simp
    · rcases List.mem_cons.mp h with rfl | h2
      · simp_all
      · simpa using ih h2

lemma idxOfR_getD (v : ℝ) (l : List ℝ) (h : v ∈ l) : l.getD (idxOfR v l) 0 = v := by
  induction l with
  | nil => simp at h
  | cons y ys ih =>
    unfold idxOfR
    split
    · simpa using by assumption
    · rcases List.mem_cons.mp h with rfl | h2
      · simp_all
      · simpa using ih h2

lemma idxOfR_first (v : ℝ) (l : List ℝ) :
    ∀ j, j < idxOfR v l → l.getD j 0 ≠ v := by
  induction l with
  | nil => intro j hj; unfold idxOfR at hj; omega
  | cons y ys ih =>
    intro j hj
    unfold idxOfR at hj
    split at hj
    · omega
    · cases j with
      | zero => simpa using by assumption
      | succ j2 => simpa using ih j2 (by omega)

/-- Every successful `cyclic_corr` call returns the shared statistics
epilogue applied to some correlation sequence. -/
lemma cyclic_corr_ok_corr_stats
    (s1 s2 : PySignal) (method : PyParam) (padded : Bool) (wrt : PyParam)
    (normalized : Bool) (res : List ℂ × ℝ × ℕ × ℝ)
    (h : cyclic_corr s1 s2 method padded wrt normalized = .ok res) :
    ∃ Z, res = corr_stats Z := by
  unfold cyclic_corr at h
  cases normalized <;> simp only [readLocalN, Bool.false_eq_true, if_false, if_true] at h <;>
    repeat' split at h
  all_goals
    first
      | exact ⟨_, (Except.ok.inj h).symm⟩
      | exact absurd h (by simp)

/-- C8: for every correlation result `(Z, max_val, t_max, min_val)`
returned by `cyclic_corr`, `max_val` bounds every elementwise magnitude
`|Z[j]|` from above and `min_val` from below, both are non-negative,
`t_max` is the smallest index attaining `|Z[t_max]| = max_val` (every
strictly earlier index has a different magnitude), and `min_val` is
attained by some element, so the two bounds are exactly the maximum and
minimum of `|Z|`. -/
theorem claim_statistics_correct :
    ∀ (s1 s2 : PySignal) (method : PyParam) (padded : Bool) (wrt : PyParam)
      (normalized : Bool) (Z : List ℂ) (mx : ℝ) (tm : ℕ) (mn : ℝ),
    cyclic_corr s1 s2 method padded wrt normalized = .ok (Z, mx, tm, mn) →
    Z ≠ [] →
    0 ≤ mx ∧ 0 ≤ mn
    ∧ (∀ j, j < Z.length → mn ≤ Complex.abs (Z.getD j 0) ∧ Complex.abs (Z.getD j 0) ≤ mx)
    ∧ tm < Z.length
    ∧ Complex.abs (Z.getD tm 0) = mx
    ∧ (∀ j, j < tm → Complex.abs (Z.getD j 0) ≠ mx)
    ∧ (∃ j, j < Z.length ∧ Complex.abs (Z.getD j 0) = mn) := by
  intro s1 s2 method padded wrt normalized Z mx tm mn h hne
  obtain ⟨Z0, hres⟩ := cyclic_corr_ok_corr_stats s1 s2 method padded wrt normalized _ h
  simp only [corr_stats, Prod.mk.injEq] at hres
  obtain ⟨hZ, hmx, htm, hmn⟩ := hres
  subst hZ
  subst hmx
  subst htm
  subst hmn
  have hAne : Z.map Complex.abs ≠ [] := by simpa using hne
  have hlenA : (Z.map Complex.abs).length = Z.length := List.length_map _ _
  have hAj : ∀ j, j < Z.length →
      (Z.map Complex.abs).getD j 0 = Complex.abs (Z.getD j 0) := by
    intro j hj
    rw [List.getD_eq_getElem _ _ (by simpa using hj), List.getD_eq_getElem _ _ hj]
    simp
  have hmaxmem := np_max_mem (Z.map Complex.abs) hAne
  have hminmem := np_min_mem (Z.map Complex.abs) hAne
  have htmlt : np_argmax (Z.map Complex.abs) < Z.length := by
    rw [← hlenA]
    exact idxOfR_lt_length _ _ hmaxmem
  refine ⟨?_, ?_, ?_, htmlt, ?_, ?_, ?_⟩
  · obtain ⟨z, _, hzeq⟩ := List.mem_map.mp hmaxmem
    rw [← hzeq]
    exact Complex.abs.nonneg z
  · obtain ⟨z, _, hzeq⟩ := List.mem_map.mp hminmem
    rw [← hzeq]
    exact Complex.abs.nonneg z
  · intro j hj
    have hmem : (Z.map Complex.abs).getD j 0 ∈ Z.map Complex.abs := by
      rw [List.getD_eq_getElem _ _ (by simpa using hj)]
      exact List.getElem_mem _
    constructor
    · have := np_min_is_lb _ _ hmem
      rwa [hAj j hj] at this
    · have := np_max_is_ub _ _ hmem
      rwa [hAj j hj] at this
  · have h2 := hAj _ htmlt
    rw [← h2]
    exact idxOfR_getD _ _ hmaxmem
  · intro j hj
    have hjlt : j < Z.length := lt_trans hj htmlt
    have h2 := hAj j hjlt
    rw [← h2]
    exact idxOfR_first _ _ j hj
  · obtain ⟨j, hjA, hjv⟩ := List.mem_iff_getElem.mp hminmem
    have hjZ : j < Z.length := by rwa [hlenA] at hjA
    refine ⟨j, hjZ, ?_⟩
    rw [← hAj j hjZ, List.getD_eq_getElem _ _ hjA]
    exact hjv

/-- The concrete run used as the C8 witness:
`cyclic_corr([1], [1], "analytic", padded, "short", normalized=True)`
returns `Z = [1]` with `max_val = 1`, `t_max = 0`, `min_val = 1`. -/
lemma cyclic_corr_one :
    cyclic_corr (.arr1 [1]) (.arr1 [1]) (.pstr "analytic") true (.pstr "short") true
      = .ok ([1], 1, 0, 1) := by
  rw [cyclic_corr_analytic_eq [1] [1] "short" true (Or.inl (by decide)) rfl]
  have hr : List.range 1 = [0] := rfl
  norm_num [corr_stats, Zk, Zl, np_max, np_min, np_argmax, idxOfR, hr,
    Finset.sum_range_one]

/-- Witness for C8 at the concrete run `cyclic_corr_one`. -/
theorem claim_statistics_correct_witness :
    cyclic_corr (.arr1 [1]) (.arr1 [1]) (.pstr "analytic") true (.pstr "short") true
      = .ok ([1], 1, 0, 1)
    ∧ ([1] : List ℂ) ≠ []
    ∧ ((0 : ℝ) ≤ 1 ∧ (0 : ℝ) ≤ 1
      ∧ (∀ j, j < ([1] : List ℂ).length →
          (1 : ℝ) ≤ Complex.abs (([1] : List ℂ).getD j 0)
          ∧ Complex.abs (([1] : List ℂ).getD j 0) ≤ 1)
      ∧ 0 < ([1] : List ℂ).length
      ∧ Complex.abs (([1] : List ℂ).getD 0 0) = 1
      ∧ (∀ j, j < 0 → Complex.abs (([1] : List ℂ).getD j 0) ≠ 1)
      ∧ (∃ j, j < ([1] : List ℂ).length ∧ Complex.abs (([1] : List ℂ).getD j 0) = 1)) :=
  ⟨cyclic_corr_one, by simp,
    claim_statistics_correct (.arr1 [1]) (.arr1 [1]) (.pstr "analytic") true (.pstr "short") true
      [1] 1 0 1 cyclic_corr_one (by simp)⟩

/-! ### Claim C10 -/

lemma readA_append (σ ext : Store) (b : ℕ) (hb : b < σ.length) :
    readA (σ ++ ext) b = readA σ b := by
  unfold readA
  exact List.getD_append _ _ _ _ hb

/-- The reconciliation phase only appends fresh cells to the store. -/
lemma store_extends_check (σ : Store) (a1 a2 : ℕ) (w : String) (p : Bool) :
    ∃ ext, (check_inputs_heap σ a1 a2 w p).2 = σ ++ ext := by
  unfold check_inputs_heap
  split
  · exact ⟨[], (List.append_nil σ).symm⟩
  · split
    · split
      · exact ⟨_, rfl⟩
      · exact ⟨_, rfl⟩
    · split
      · exact ⟨_, List.append_assoc σ _ _⟩
      · exact ⟨_, List.append_assoc σ _ _⟩

/-- The correlation phase only appends fresh cells to the store. -/
lemma store_extends_phase (σ1 : Store) (b1 b2 : ℕ) (method : String)
    (normalized : Bool) :
    ∃ ext, (corr_heap_phase σ1 b1 b2 method normalized).2 = σ1 ++ ext := by
  unfold corr_heap_phase
  cases normalized <;>
    simp only [Bool.false_eq_true, if_false, if_true, readLocalN] <;>
    split
  all_goals first
    | exact ⟨_, rfl⟩
    | exact ⟨[], (List.append_nil σ1).symm⟩

/-- C10: neither reconciliation nor the correlation engine ever mutates
a caller-owned array: over the explicit-store replay of the valid-signal
path (where `writeA`, the in-place update, is never invoked — mirroring
the source, which contains no in-place numpy operation), every array
held in the store before the call reads back unchanged after both
`check_inputs_heap` and the full `cyclic_corr_heap`; padding, truncation
and tiling allocate fresh cells. -/
theorem claim_no_input_mutation :
    ∀ (σ : Store) (a1 a2 : ℕ) (method wrt : String) (padded normalized : Bool) (b : ℕ),
    b < σ.length →
    readA (check_inputs_heap σ a1 a2 (strLower wrt) padded).2 b = readA σ b
    ∧ readA (cyclic_corr_heap σ a1 a2 method padded wrt normalized).2 b = readA σ b := by
  intro σ a1 a2 method wrt padded normalized b hb
  obtain ⟨ext1, h1⟩ := store_extends_check σ a1 a2 (strLower wrt) padded
  obtain ⟨ext2, h2⟩ := store_extends_phase
    (check_inputs_heap σ a1 a2 (strLower wrt) padded).2
    (check_inputs_heap σ a1 a2 (strLower wrt) padded).1.1
    (check_inputs_heap σ a1 a2 (strLower wrt) padded).1.2 method normalized
  constructor
  · rw [h1]
    exact readA_append σ ext1 b hb
  · unfold cyclic_corr_heap
    rw [h2, h1, List.append_assoc]
    exact readA_append σ (ext1 ++ ext2) b hb

/-- Witness for C10: a two-array store, correlated with `"fft"`. -/
theorem claim_no_input_mutation_witness :
    0 < ([[1], [2]] : Store).length
    ∧ (readA (check_inputs_heap [[1], [2]] 0 1 (strLower "short") true).2 0
        = readA [[1], [2]] 0
      ∧ readA (cyclic_corr_heap [[1], [2]] 0 1 "fft" true "short" true).2 0
        = readA [[1], [2]] 0) :=
  ⟨by decide, claim_no_input_mutation [[1], [2]] 0 1 "fft" "short" true true 0 (by decide)⟩

end CyclicCorrelation
